import Mathlib

/-!
# CourseWatcher — verification of the discovery / progress / notes core

Shallow embedding of the CourseWatcher services (`VideoService`,
`ProgressService`, `NotesService` and the SQLite row model from
`src/models/database.js`) and proofs about the spec's claims.

Modelling conventions:
* SQLite rows are Lean structures; a table is a `List` of rows kept in
  insertion order (matching SQLite rowid order, which is the order bare
  `SELECT`s return and which `ORDER BY` re-sorts).
* JavaScript numbers (positions, durations) are modelled as `ℚ`; the
  float special value `NaN` and float rounding are outside the model.
* Fallible service methods return `Except Err`, mirroring the
  `NotFoundError` / `ValidationError` throws.
* `updated_at` / `created_at` timestamps are not modelled; no claim
  mentions them.
-/

namespace CourseWatcher

/-! ## Data model and embedded operations -/

/-- Watch status enum: the `CHECK(status IN ('unwatched','in-progress','completed'))`
column of the `videos` table. -/
inductive Status where
  | unwatched
  | inProgress
  | completed
deriving DecidableEq, Repr

/-- A row of the `videos` table (database.js lines 74–89). -/
structure Video where
  id : Nat
  path : String
  filename : String
  title : String
  duration : ℚ
  position : ℚ
  status : Status
  moduleId : Option Nat
  sortOrder : Nat
deriving DecidableEq, Repr

/-- A row of the `modules` table. -/
structure Module where
  id : Nat
  name : String
  path : String
  sortOrder : Nat
deriving DecidableEq, Repr

/-- A row of the `notes` table (`video_id` is UNIQUE in the schema). -/
structure Note where
  videoId : Nat
  content : String
deriving DecidableEq, Repr

/-- The database state: the three tables plus the AUTOINCREMENT counters. -/
structure Store where
  modules : List Module
  videos : List Video
  notes : List Note
  nextVideoId : Nat
  nextModuleId : Nat
deriving DecidableEq, Repr

/-- The freshly initialized database: empty tables, AUTOINCREMENT ids start at 1. -/
def initialStore : Store :=
  { modules := [], videos := [], notes := [], nextVideoId := 1, nextModuleId := 1 }

/-- The two recoverable error kinds thrown by the services (utils/errors.js). -/
inductive Err where
  | notFound (resource : String)
  | validation (message : String)
deriving DecidableEq, Repr

/-- The query `SELECT * FROM videos WHERE id = ?` — first row whose id matches. -/
def findVideo (s : Store) (videoId : Nat) : Option Video :=
  s.videos.find? (fun v => decide (v.id = videoId))

/-- The query `SELECT * FROM notes WHERE video_id = ?`. -/
def findNote (s : Store) (videoId : Nat) : Option Note :=
  s.notes.find? (fun n => decide (n.videoId = videoId))

/-- The statement `UPDATE videos SET ... WHERE id = ?`: applies `g` to every row whose id
matches (ids are unique in the real database, so at most one row changes). -/
def replaceVideo (s : Store) (videoId : Nat) (g : Video → Video) : Store :=
  { s with videos := s.videos.map (fun v => if v.id = videoId then g v else v) }

/-- The constant `config.completionThreshold` from utils/config.js: `0.9`. -/
def completionThreshold : ℚ := 9 / 10

/-- JavaScript `a || b` for a nullable number `a`: `null` and `0` are falsy
(`NaN` is falsy too but is outside the `ℚ` model). -/
def jsOrQ (a : Option ℚ) (b : ℚ) : ℚ :=
  match a with
  | none => b
  | some x => if x = 0 then b else x

/-- The duration the classifier divides by:
`const videoDuration = duration || video.duration` (progress-service line 45). -/
def usedDuration (video : Video) (duration : Option ℚ) : ℚ :=
  jsOrQ duration video.duration

/-- SQL `COALESCE(?, duration)`: the supplied value unless it is NULL. -/
def coalesce (a : Option ℚ) (b : ℚ) : ℚ :=
  a.getD b

/-- Status derivation of `ProgressService.updatePosition` (lines 43–57):

```
let newStatus = video.status;
const videoDuration = duration || video.duration;
if (videoDuration > 0) {
  const watchPercent = position / videoDuration;
  if (watchPercent >= config.completionThreshold) newStatus = 'completed';
  else if (position > 0) newStatus = 'in-progress';
} else if (position > 0 && video.status === 'unwatched') {
  newStatus = 'in-progress';
}
``` -/
def deriveStatus (video : Video) (position : ℚ) (duration : Option ℚ) : Status :=
  let videoDuration := usedDuration video duration
  if 0 < videoDuration then
    if completionThreshold ≤ position / videoDuration then Status.completed
    else if 0 < position then Status.inProgress
    else video.status
  else if 0 < position ∧ video.status = Status.unwatched then Status.inProgress
  else video.status

/-- The row update performed by `updatePosition`'s `UPDATE` statement
(lines 60–68): `position = ?`, `duration = COALESCE(?, duration)`,
`status = ?` with the derived status. -/
def applyPosition (video : Video) (position : ℚ) (duration : Option ℚ) : Video :=
  { video with
      position := position
      duration := coalesce duration video.duration
      status := deriveStatus video position duration }

/-- The method `ProgressService.updatePosition(videoId, position, duration = null)`.
Validates the position, fetches the video (`NotFoundError` if absent),
runs the `UPDATE`, and returns the re-fetched row together with the new
store state.  (The re-fetched row equals `applyPosition video ...`; see
`findVideo_replaceVideo`.) -/
def updatePosition (s : Store) (videoId : Nat) (position : ℚ) (duration : Option ℚ) :
    Except Err (Video × Store) :=
  if position < 0 then
    Except.error (Err.validation "Position must be a non-negative number")
  else
    match findVideo s videoId with
    | none => Except.error (Err.notFound ("Video with id " ++ toString videoId))
    | some video =>
        Except.ok (applyPosition video position duration,
          replaceVideo s videoId (fun v => applyPosition v position duration))

/-- Parse of the `validStatuses.includes(status)` check in
`ProgressService.updateStatus`. -/
def statusOfString (str : String) : Option Status :=
  if str = "unwatched" then some Status.unwatched
  else if str = "in-progress" then some Status.inProgress
  else if str = "completed" then some Status.completed
  else none

/-- The method `ProgressService.updateStatus(videoId, status)` (lines 79–106):
validates the status string, fetches the video, resets the position to 0
when the new status is `unwatched` (otherwise keeps the fetched row's
position), and writes status and position back. -/
def updateStatus (s : Store) (videoId : Nat) (status : String) :
    Except Err (Video × Store) :=
  match statusOfString status with
  | none =>
      Except.error
        (Err.validation "Invalid status. Must be one of: unwatched, in-progress, completed")
  | some st =>
      match findVideo s videoId with
      | none => Except.error (Err.notFound ("Video with id " ++ toString videoId))
      | some video =>
          let newPosition : ℚ := if st = Status.unwatched then 0 else video.position
          let upd : Video → Video := fun v => { v with status := st, position := newPosition }
          Except.ok (upd video, replaceVideo s videoId upd)

/-- One entry of the list produced by `VideoService._findVideoFiles`: the
discovered file's absolute path, its name, the derived title, the module
name/path (`'Root'` for files directly under the course root) and the
derived sort key. -/
structure FoundVideo where
  path : String
  filename : String
  title : String
  moduleName : String
  modulePath : String
  sortOrder : Nat
deriving DecidableEq, Repr

/-- The result object of `scanVideos`: `{total, added, existing}`. -/
structure ScanResult where
  total : Nat
  added : Nat
  existing : Nat
deriving DecidableEq, Repr

/-- The helper `VideoService._extractSortOrder`: leading run of digits parsed as an
integer, `999` when the name does not start with a digit. -/
def extractSortOrder (filename : String) : Nat :=
  let digits := filename.data.takeWhile Char.isDigit
  if digits.isEmpty then 999
  else digits.foldl (fun acc c => acc * 10 + (c.toNat - 48)) 0

/-- The helper `VideoService._getOrCreateModule`: `'Root'` maps to `none` (NULL
module_id); otherwise look the module up by path, inserting it with a
sort key derived from its name when absent.  Returns the module id and
the (possibly extended) store. -/
def getOrCreateModule (s : Store) (modulePath moduleName : String) : Option Nat × Store :=
  if moduleName = "Root" then (none, s)
  else
    match s.modules.find? (fun m => decide (m.path = modulePath)) with
    | some m => (some m.id, s)
    | none =>
        let m : Module :=
          { id := s.nextModuleId, name := moduleName, path := modulePath,
            sortOrder := extractSortOrder moduleName }
        (some s.nextModuleId,
          { s with modules := s.modules ++ [m], nextModuleId := s.nextModuleId + 1 })

/-- The per-file body of `scanVideos`' reconciliation loop (lines 39–64):
look the video up by path; if found, `UPDATE videos SET title = ?` only;
otherwise resolve the module and `INSERT` a fresh row with the schema
defaults `duration = 0`, `position = 0`, `status = 'unwatched'`. -/
def scanStep (acc : ScanResult × Store) (f : FoundVideo) : ScanResult × Store :=
  let r := acc.1
  let s := acc.2
  match s.videos.find? (fun v => decide (v.path = f.path)) with
  | some existing =>
      ({ r with existing := r.existing + 1 },
        { s with
            videos := s.videos.map
              (fun v => if v.id = existing.id then { v with title := f.title } else v) })
  | none =>
      let ms := getOrCreateModule s f.modulePath f.moduleName
      let s1 := ms.2
      let v : Video :=
        { id := s1.nextVideoId, path := f.path, filename := f.filename, title := f.title,
          duration := 0, position := 0, status := Status.unwatched,
          moduleId := ms.1, sortOrder := f.sortOrder }
      ({ r with added := r.added + 1 },
        { s1 with videos := s1.videos ++ [v], nextVideoId := s1.nextVideoId + 1 })

/-- The method `VideoService.scanVideos`, with the discovered-file list (the output of
the filesystem walk `_findVideoFiles`) as input: folds the reconciliation
step over it inside one transaction and reports
`{total := videos.length, added, existing}`. -/
def scanVideos (s : Store) (found : List FoundVideo) : ScanResult × Store :=
  found.foldl scanStep ({ total := found.length, added := 0, existing := 0 }, s)

/-- The ordering `ORDER BY sort_order, filename`: ascending lexicographic comparison on
the sort key, ties broken by filename. -/
def videoOrder (a b : Video) : Prop :=
  a.sortOrder < b.sortOrder ∨ (a.sortOrder = b.sortOrder ∧ a.filename ≤ b.filename)

instance : DecidableRel videoOrder := fun a b =>
  inferInstanceAs (Decidable
    (a.sortOrder < b.sortOrder ∨ (a.sortOrder = b.sortOrder ∧ a.filename ≤ b.filename)))

instance : IsTotal Video videoOrder :=
  ⟨fun a b => by
    rcases Nat.lt_trichotomy a.sortOrder b.sortOrder with h | h | h
    · exact Or.inl (Or.inl h)
    · rcases le_total a.filename b.filename with hf | hf
      · exact Or.inl (Or.inr ⟨h, hf⟩)
      · exact Or.inr (Or.inr ⟨h.symm, hf⟩)
    · exact Or.inr (Or.inl h)⟩

instance : IsTrans Video videoOrder :=
  ⟨fun a b c h₁ h₂ => by
    rcases h₁ with h₁ | ⟨h₁, h₁'⟩ <;> rcases h₂ with h₂ | ⟨h₂, h₂'⟩
    · exact Or.inl (h₁.trans h₂)
    · exact Or.inl (h₂ ▸ h₁)
    · exact Or.inl (h₁ ▸ h₂)
    · exact Or.inr ⟨h₁.trans h₂, h₁'.trans h₂'⟩⟩

/-- The row ordering a `SELECT ... ORDER BY sort_order, filename` returns. -/
def sortRows (l : List Video) : List Video :=
  l.insertionSort videoOrder

/-- Lower-cased character list of a string (SQLite `LIKE` is
case-insensitive; `Char.toLower` models its ASCII folding). -/
def lowerChars (str : String) : List Char :=
  str.data.map Char.toLower

/-- Is `pat` a prefix of `hay`? -/
def isPrefixL (pat hay : List Char) : Bool :=
  match pat, hay with
  | [], _ => true
  | _ :: _, [] => false
  | a :: as, b :: bs => a == b && isPrefixL as bs

/-- Does `hay` contain `pat` as a contiguous sublist? -/
def containsL (pat hay : List Char) : Bool :=
  match hay with
  | [] => isPrefixL pat []
  | _ :: rest => isPrefixL pat hay || containsL pat rest

/-- SQLite `LIKE` pattern matching on character lists, pattern first:
`%` matches any (possibly empty) run of characters, `_` matches exactly
one character, and every other pattern character matches
case-insensitively (`Char.toLower` models SQLite's ASCII folding).
The `%` case tries every suffix of the remaining string, so the
recursion is structural on the pattern. -/
def likeMatch : List Char → List Char → Bool
  | [], s => s.isEmpty
  | c :: ps, s =>
      if c = '%' then s.tails.any (fun t => likeMatch ps t)
      else if c = '_' then
        match s with
        | [] => false
        | _ :: s' => likeMatch ps s'
      else
        match s with
        | [] => false
        | x :: s' => (c.toLower == x.toLower) && likeMatch ps s'

/-- The SQL predicate `str LIKE pattern` (no ESCAPE clause). -/
def sqlLike (str pattern : String) : Bool :=
  likeMatch pattern.data str.data

/-- The pattern `searchVideos` binds: ``const searchTerm = `%${query}%` ``. -/
def searchTerm (query : String) : String :=
  "%" ++ query ++ "%"

/-- The joined `m.name` of the `LEFT JOIN modules m ON v.module_id = m.id`:
`none` models the NULL module name of root-level videos. -/
def moduleNameFor (s : Store) (v : Video) : Option String :=
  match v.moduleId with
  | none => none
  | some mid => (s.modules.find? (fun m => decide (m.id = mid))).map Module.name

/-- The method `VideoService.searchVideos(query)` (lines 285–295):
`WHERE v.title LIKE ? OR v.filename LIKE ?` with the `'%query%'` search
term, left-joined with the module name, `ORDER BY v.sort_order,
v.filename`. -/
def searchVideos (s : Store) (query : String) : List (Video × Option String) :=
  (sortRows (s.videos.filter
      (fun v => sqlLike v.title (searchTerm query)
        || sqlLike v.filename (searchTerm query)))).map
    (fun v => (v, moduleNameFor s v))

/-- The `/api/search` (and `/search`) route handler's use of the service:
`const results = query ? videoService.searchVideos(query) : []` — the
empty (falsy) query string short-circuits to `[]` without querying. -/
def apiSearch (s : Store) (query : String) : List (Video × Option String) :=
  if query = "" then [] else searchVideos s query

/-- The object returned by `VideoService.getStats`. -/
structure Stats where
  total : ℤ
  completed : ℤ
  inProgress : ℤ
  unwatched : ℤ
  percentComplete : ℤ
deriving DecidableEq, Repr

/-- The method `VideoService.getStats` (lines 301–319): three `COUNT(*)` queries;
`unwatched` is the subtraction, `percentComplete` is
`Math.round((completed / total) * 100)` guarded by `total > 0`. -/
def getStats (s : Store) : Stats :=
  let total : ℤ := s.videos.length
  let completed : ℤ := s.videos.countP (fun v => decide (v.status = Status.completed))
  let inProgress : ℤ := s.videos.countP (fun v => decide (v.status = Status.inProgress))
  { total := total
    completed := completed
    inProgress := inProgress
    unwatched := total - completed - inProgress
    percentComplete :=
      if 0 < total then round ((completed : ℚ) / (total : ℚ) * 100) else 0 }

/-- The method `NotesService.getNotes(videoId)` (lines 28–41): `NotFoundError` when the
video does not exist; otherwise the notes row, or the synthesized
`{video_id: videoId, content: ''}` when none exists.  Only `SELECT`s are
executed, so the store comes back unchanged. -/
def getNotes (s : Store) (videoId : Nat) : Except Err (Note × Store) :=
  match findVideo s videoId with
  | none => Except.error (Err.notFound ("Video with id " ++ toString videoId))
  | some _ =>
      match findNote s videoId with
      | some n => Except.ok (n, s)
      | none => Except.ok ({ videoId := videoId, content := "" }, s)

/-- The `INSERT ... ON CONFLICT(video_id) DO UPDATE SET content = ...`
statement of `saveNotes`: update the existing row's content in place, or
append a fresh row when the video has no notes row yet. -/
def upsertNote (s : Store) (videoId : Nat) (content : String) : Store :=
  if s.notes.any (fun x => decide (x.videoId = videoId)) then
    { s with notes := (s.notes.map
        (fun x => if x.videoId = videoId then { x with content := content } else x)) }
  else
    { s with notes := s.notes ++ [{ videoId := videoId, content := content }] }

/-- The method `NotesService.saveNotes(videoId, content)` (lines 49–67): verify the
video exists, run the upsert, then return `getNotes(videoId)` on the new
state. -/
def saveNotes (s : Store) (videoId : Nat) (content : String) :
    Except Err (Note × Store) :=
  match findVideo s videoId with
  | none => Except.error (Err.notFound ("Video with id " ++ toString videoId))
  | some _ =>
      match getNotes (upsertNote s videoId content) videoId with
      | Except.ok (n, _) => Except.ok (n, upsertNote s videoId content)
      | Except.error e => Except.error e

/-- Does the video have a notes row with non-empty content?  This is the
`INNER JOIN notes n ON v.id = n.video_id WHERE n.content != ''`
membership condition (video_id is UNIQUE, so the join yields at most one
row per video). -/
def hasNonemptyNote (s : Store) (v : Video) : Bool :=
  match findNote s v.id with
  | some n => decide (n.content ≠ "")
  | none => false

/-- The method `NotesService.getVideosWithNotes` (lines 86–94): videos having a
non-empty notes row, each paired with its `notes_content`, ordered by
`v.sort_order, v.filename`. -/
def getVideosWithNotes (s : Store) : List (Video × String) :=
  (sortRows (s.videos.filter (fun v => hasNonemptyNote s v))).map
    (fun v => (v, ((findNote s v.id).map Note.content).getD ""))

/-- Linear rank of the three states: a status "regresses" when its rank
decreases. -/
def statusRank : Status → Nat
  | Status.unwatched => 0
  | Status.inProgress => 1
  | Status.completed => 2

/-- A sequence of `recordPosition` calls on one video, as the store-level
fold of `updatePosition` (stopping at the first error). -/
def runPositions (s : Store) (videoId : Nat) (ps : List ℚ) (d : Option ℚ) :
    Except Err Store :=
  ps.foldlM (fun st p => (updatePosition st videoId p d).map Prod.snd) s

/-- A video already `completed` at 595/600 seconds. -/
def c1video : Video :=
  { id := 1, path := "/course/01_intro.mp4", filename := "01_intro.mp4",
    title := "01 intro", duration := 600, position := 595,
    status := Status.completed, moduleId := none, sortOrder := 1 }

/-- Store holding one video already `completed` at 595/600 seconds. -/
def c1Store : Store :=
  { modules := [], notes := [], nextVideoId := 2, nextModuleId := 1,
    videos := [c1video] }

/-- Store holding one fresh (`unwatched`) video, used in several witnesses. -/
def demoStore : Store :=
  { modules := [], notes := [], nextVideoId := 2, nextModuleId := 1,
    videos := [{ id := 1, path := "/course/01_intro.mp4", filename := "01_intro.mp4",
                 title := "01 intro", duration := 0, position := 0,
                 status := Status.unwatched, moduleId := none, sortOrder := 1 }] }

/-- Modelled from the spec's words, for comparison with the code:
"Computes effective duration = supplied `duration` if present and
positive, else the previously stored duration." -/
def specEffectiveDuration (d : Option ℚ) (stored : ℚ) : ℚ :=
  match d with
  | some x => if 0 < x then x else stored
  | none => stored

/-- A fresh `unwatched` video whose stored duration is 600 seconds. -/
def c3video : Video :=
  { id := 1, path := "/course/02_setup.mp4", filename := "02_setup.mp4",
    title := "02 setup", duration := 600, position := 0,
    status := Status.unwatched, moduleId := none, sortOrder := 2 }

/-- Store holding `c3video` only. -/
def c3Store : Store :=
  { modules := [], notes := [], nextVideoId := 2, nextModuleId := 1,
    videos := [c3video] }

/-- Store with one video and one non-empty notes row, for the C10 witness. -/
def c10Store : Store :=
  { modules := [], nextVideoId := 2, nextModuleId := 1,
    videos := [c3video], notes := [{ videoId := 1, content := "hello" }] }

/-- The store after `saveNotes(1, '')` on `c10Store`: the row remains, with
empty content. -/
def c10Store' : Store :=
  { modules := [], nextVideoId := 2, nextModuleId := 1,
    videos := [c3video], notes := [{ videoId := 1, content := "" }] }

/-- Forgets the one field a rescan may rewrite: everything except `title`. -/
def eraseTitle (v : Video) : Video :=
  { v with title := "" }

/-- The discovery-list entry used by the C5 and C6 witnesses. -/
def demoFound : FoundVideo :=
  { path := "/course/01_intro.mp4", filename := "01_intro.mp4",
    title := "01 intro", moduleName := "Root", modulePath := "/course",
    sortOrder := 1 }

/-- The C7 invariant: every `unwatched` video has position 0. -/
def unwatchedZero (s : Store) : Prop :=
  ∀ v ∈ s.videos, v.status = Status.unwatched → v.position = 0

/-- Store states reachable from a fresh database through the public
operations of the claim: scan, recordPosition and setStatus. -/
inductive Reachable : Store → Prop where
  | init : Reachable initialStore
  | scan (s : Store) (found : List FoundVideo) :
      Reachable s → Reachable (scanVideos s found).2
  | recordPos (s : Store) (videoId : Nat) (p : ℚ) (d : Option ℚ) (v : Video) (s' : Store) :
      Reachable s → updatePosition s videoId p d = Except.ok (v, s') → Reachable s'
  | setStatus (s : Store) (videoId : Nat) (str : String) (v : Video) (s' : Store) :
      Reachable s → updateStatus s videoId str = Except.ok (v, s') → Reachable s'

/-! ## Theorems -/

/-- Updating (via `map` with a guard) the rows satisfying `q` moves `find?`
past unaffected rows: if the first matching row was `a`, the first
matching row afterwards is `g a`, provided `g` preserves the predicate. -/
theorem find?_map_update {α : Type} (q : α → Prop) [DecidablePred q] (g : α → α)
    (hg : ∀ a, q a → q (g a)) :
    ∀ (l : List α) (a : α),
      l.find? (fun x => decide (q x)) = some a →
      (l.map (fun x => if q x then g x else x)).find? (fun x => decide (q x)) = some (g a)
  | [], a, h => by simp [List.find?] at h
  | b :: l, a, h => by
      by_cases hb : q b
      · rw [List.find?_cons_of_pos _ (by simpa using hb)] at h
        cases h
        simp only [List.map_cons, if_pos hb]
        rw [List.find?_cons_of_pos _ (by simpa using hg b hb)]
      · rw [List.find?_cons_of_neg _ (by simpa using hb)] at h
        simp only [List.map_cons, if_neg hb]
        rw [List.find?_cons_of_neg _ (by simpa using hb)]
        exact find?_map_update q g hg l a h

/-- The re-fetch after `updatePosition`/`updateStatus`'s `UPDATE`: looking
the id up in the updated store returns the updated first match. -/
theorem findVideo_replaceVideo (s : Store) (videoId : Nat) (g : Video → Video)
    (hg : ∀ v, v.id = videoId → (g v).id = videoId) (video : Video)
    (h : findVideo s videoId = some video) :
    findVideo (replaceVideo s videoId g) videoId = some (g video) := by
  have h' : s.videos.find? (fun x => decide (x.id = videoId)) = some video := h
  exact find?_map_update (q := fun v : Video => v.id = videoId) g hg s.videos video h'

/-- Inversion of a successful `updatePosition` call: the position was
non-negative, the video existed, and the result is the updated row and
store. -/
theorem updatePosition_ok {s : Store} {videoId : Nat} {p : ℚ} {d : Option ℚ}
    {v : Video} {s' : Store}
    (h : updatePosition s videoId p d = Except.ok (v, s')) :
    0 ≤ p ∧ ∃ video, findVideo s videoId = some video ∧
      v = applyPosition video p d ∧
      s' = replaceVideo s videoId (fun w => applyPosition w p d) := by
  by_cases hp : p < 0
  · simp [updatePosition, hp] at h
  · cases hfind : findVideo s videoId with
    | none => simp [updatePosition, hp, hfind] at h
    | some video =>
        simp only [updatePosition, if_neg hp, hfind, Except.ok.injEq, Prod.mk.injEq] at h
        exact ⟨not_lt.mp hp, video, rfl, h.1.symm, h.2.symm⟩

/-- Inversion of a successful `updateStatus` call. -/
theorem updateStatus_ok {s : Store} {videoId : Nat} {status : String}
    {v : Video} {s' : Store}
    (h : updateStatus s videoId status = Except.ok (v, s')) :
    ∃ st video, statusOfString status = some st ∧
      findVideo s videoId = some video ∧
      v = { video with status := st, position := if st = Status.unwatched then 0 else video.position } ∧
      s' = replaceVideo s videoId (fun w => { w with status := st, position := if st = Status.unwatched then 0 else video.position }) := by
  cases hst : statusOfString status with
  | none => simp [updateStatus, hst] at h
  | some st =>
      cases hfind : findVideo s videoId with
      | none => simp [updateStatus, hst, hfind] at h
      | some video =>
          simp only [updateStatus, hst, hfind, Except.ok.injEq, Prod.mk.injEq] at h
          exact ⟨st, video, rfl, rfl, h.1.symm, h.2.symm⟩

/-- How the classifier's divisor evolves through the `UPDATE`:
`duration = COALESCE(d, duration)` feeds the next call's
`d || video.duration`. -/
theorem jsOrQ_coalesce (d : Option ℚ) (b : ℚ) :
    jsOrQ d (coalesce d b) = if d = some 0 then 0 else jsOrQ d b := by
  cases d with
  | none => simp [jsOrQ, coalesce]
  | some x =>
      by_cases hx : x = 0
      · simp [jsOrQ, coalesce, hx]
      · simp [jsOrQ, coalesce, hx]

/-- One `applyPosition` step with a position at least the stored one never
lowers the status rank, and any `completed` it leaves behind is justified
by the stored position (or the divisor is non-positive). -/
theorem applyPosition_step (d : Option ℚ) (v : Video) (p : ℚ)
    (hc : v.status = Status.completed →
      usedDuration v d ≤ 0 ∨
        (completionThreshold * usedDuration v d ≤ v.position ∧ v.position ≤ p)) :
    statusRank v.status ≤ statusRank (applyPosition v p d).status
    ∧ ((applyPosition v p d).status = Status.completed →
        usedDuration (applyPosition v p d) d ≤ 0 ∨
          completionThreshold * usedDuration (applyPosition v p d) d ≤
            (applyPosition v p d).position)
    ∧ (applyPosition v p d).position = p := by
  have hnewD : usedDuration (applyPosition v p d) d =
      if d = some 0 then 0 else usedDuration v d := by
    simpa [usedDuration, applyPosition] using jsOrQ_coalesce d v.duration
  have hstat : (applyPosition v p d).status = deriveStatus v p d := rfl
  have hpos : (applyPosition v p d).position = p := rfl
  by_cases h0 : 0 < usedDuration v d
  · by_cases ht : completionThreshold ≤ p / usedDuration v d
    · -- threshold reached: the new status is completed and justified.
      have hd : deriveStatus v p d = Status.completed := by
        simp [deriveStatus, h0, ht]
      refine ⟨?_, ?_, hpos⟩
      · rw [hstat, hd]; cases v.status <;> simp [statusRank]
      · intro _
        rw [hnewD, hpos]
        by_cases hd0 : d = some 0
        · simp [hd0]
        · simp only [hd0, if_false]
          exact Or.inr ((le_div_iff₀ h0).mp ht)
    · by_cases hp : 0 < p
      · -- below threshold with positive position: new status is in-progress,
        -- and the old status cannot have been completed.
        have hd : deriveStatus v p d = Status.inProgress := by
          simp [deriveStatus, h0, ht, hp]
        refine ⟨?_, ?_, hpos⟩
        · rw [hstat, hd]
          cases hv : v.status with
          | completed =>
              rcases hc hv with h1 | ⟨h1, h2⟩
              · exact absurd h0 (not_lt.mpr h1)
              · exact absurd ((le_div_iff₀ h0).mpr (h1.trans h2)) ht
          | unwatched => simp [statusRank]
          | inProgress => simp [statusRank]
        · rw [hstat, hd]; intro hcontra; cases hcontra
      · -- position 0 (or negative): status unchanged.
        have hd : deriveStatus v p d = v.status := by
          simp [deriveStatus, h0, ht, hp]
        refine ⟨by rw [hstat, hd], ?_, hpos⟩
        rw [hstat, hd, hnewD, hpos]
        intro hv
        rcases hc hv with h1 | ⟨h1, h2⟩
        · exact absurd h0 (not_lt.mpr h1)
        · by_cases hd0 : d = some 0
          · simp [hd0]
          · simp only [hd0, if_false]
            exact Or.inr (h1.trans h2)
  · -- unknown duration: the only movement is unwatched → in-progress.
    have hD : usedDuration v d ≤ 0 := not_lt.mp h0
    have hleft : usedDuration (applyPosition v p d) d ≤ 0 := by
      rw [hnewD]
      by_cases hd0 : d = some 0
      · simp [hd0]
      · simpa [hd0] using hD
    by_cases hu : 0 < p ∧ v.status = Status.unwatched
    · have hd : deriveStatus v p d = Status.inProgress := by
        simp [deriveStatus, h0, hu]
      refine ⟨?_, ?_, hpos⟩
      · rw [hstat, hd, hu.2]; simp [statusRank]
      · rw [hstat, hd]; intro hcontra; cases hcontra
    · have hd : deriveStatus v p d = v.status := by
        simp only [deriveStatus]
        rw [if_neg h0, if_neg hu]
      exact ⟨by rw [hstat, hd], fun _ => Or.inl hleft, hpos⟩

/-- Folding non-decreasing positions through the classifier never lowers
the status rank, as long as any initial `completed` is justified; the
resulting state again carries the justification invariant, and its
position is the last position fed in (or the initial one for the empty
run). -/
theorem foldPositions_invariant (d : Option ℚ) :
    ∀ (ps : List ℚ) (v : Video),
      (v.status = Status.completed →
        usedDuration v d ≤ 0 ∨
          (completionThreshold * usedDuration v d ≤ v.position ∧
            ∀ q, ps.head? = some q → v.position ≤ q)) →
      List.Chain' (· ≤ ·) ps →
      statusRank v.status ≤
        statusRank ((ps.foldl (fun w p => applyPosition w p d) v).status)
      ∧ ((ps.foldl (fun w p => applyPosition w p d) v).status = Status.completed →
          usedDuration (ps.foldl (fun w p => applyPosition w p d) v) d ≤ 0 ∨
            completionThreshold *
                usedDuration (ps.foldl (fun w p => applyPosition w p d) v) d ≤
              (ps.foldl (fun w p => applyPosition w p d) v).position)
      ∧ (ps.foldl (fun w p => applyPosition w p d) v).position =
          (match ps.getLast? with
           | some q => q
           | none => v.position)
  | [], v, hc, _ => by
      refine ⟨le_refl _, ?_, rfl⟩
      intro h
      rcases hc h with h1 | ⟨h1, -⟩
      · exact Or.inl h1
      · exact Or.inr h1
  | p :: ps, v, hc, hch => by
      have hstep := applyPosition_step d v p (fun h =>
        match hc h with
        | Or.inl h1 => Or.inl h1
        | Or.inr ⟨h1, h2⟩ => Or.inr ⟨h1, h2 p rfl⟩)
      have hch' := List.chain'_cons'.mp hch
      have hrec := foldPositions_invariant d ps (applyPosition v p d)
        (by
          intro h
          rcases hstep.2.1 h with h1 | h1
          · exact Or.inl h1
          · refine Or.inr ⟨h1, fun q hq => ?_⟩
            rw [hstep.2.2]
            exact hch'.1 q hq)
        hch'.2
      simp only [List.foldl_cons]
      refine ⟨le_trans hstep.1 hrec.1, hrec.2.1, ?_⟩
      cases ps with
      | nil =>
          simpa using hstep.2.2
      | cons p' ps' =>
          rw [List.getLast?_cons_cons]
          exact hrec.2.2

/-- Only `completed` has the top status rank. -/
theorem statusRank_completed {st : Status} (h : 2 ≤ statusRank st) :
    st = Status.completed := by
  cases st with
  | unwatched => simp [statusRank] at h
  | inProgress => simp [statusRank] at h
  | completed => rfl

/-- Stepwise non-regression at the classifier level: after any prefix of a
non-decreasing run started on a non-`completed` video, the status rank at
that intermediate point is at most the rank at any later point. -/
theorem foldPositions_prefix (d : Option ℚ) (pre mid : List ℚ) (v0 : Video)
    (h0 : v0.status ≠ Status.completed)
    (hch : List.Chain' (· ≤ ·) (pre ++ mid)) :
    statusRank ((pre.foldl (fun w p => applyPosition w p d) v0).status)
      ≤ statusRank (((pre ++ mid).foldl (fun w p => applyPosition w p d) v0).status) := by
  obtain ⟨hchpre, hchmid, hrel⟩ := List.chain'_append.mp hch
  obtain ⟨-, hinv, hpos⟩ :=
    foldPositions_invariant d pre v0 (fun h => absurd h h0) hchpre
  rw [List.foldl_append]
  refine (foldPositions_invariant d mid
    (pre.foldl (fun w p => applyPosition w p d) v0) ?_ hchmid).1
  intro hcomp
  rcases hinv hcomp with hL | hR
  · exact Or.inl hL
  · refine Or.inr ⟨hR, fun q hq => ?_⟩
    rw [hpos]
    cases hlast : pre.getLast? with
    | none =>
        have hnil : pre = [] := List.getLast?_eq_none_iff.mp hlast
        subst hnil
        exact absurd hcomp h0
    | some a =>
        exact hrel a (by simp [hlast]) q (by simp [hq])

/-- Simulation: with valid positions and an existing video, the store-level
fold succeeds and the tracked row is the video-level fold. -/
theorem runPositions_ok (videoId : Nat) (d : Option ℚ) :
    ∀ (ps : List ℚ) (s : Store) (v0 : Video),
      findVideo s videoId = some v0 →
      (∀ p ∈ ps, 0 ≤ p) →
      ∃ s', runPositions s videoId ps d = Except.ok s' ∧
        findVideo s' videoId =
          some (ps.foldl (fun w p => applyPosition w p d) v0)
  | [], s, v0, hfind, _ => ⟨s, rfl, by simpa using hfind⟩
  | p :: ps, s, v0, hfind, hval => by
      have hp : ¬ p < 0 := not_lt.mpr (hval p (List.mem_cons_self p ps))
      have hup : updatePosition s videoId p d =
          Except.ok (applyPosition v0 p d,
            replaceVideo s videoId (fun w => applyPosition w p d)) := by
        simp [updatePosition, hp, hfind]
      have hfind' : findVideo (replaceVideo s videoId (fun w => applyPosition w p d))
          videoId = some (applyPosition v0 p d) :=
        findVideo_replaceVideo s videoId (fun w => applyPosition w p d)
          (fun v hv => hv) v0 hfind
      obtain ⟨s', hrun, hres⟩ := runPositions_ok videoId d ps
        (replaceVideo s videoId (fun w => applyPosition w p d))
        (applyPosition v0 p d) hfind'
        (fun q hq => hval q (List.mem_cons_of_mem p hq))
      refine ⟨s', ?_, by simpa using hres⟩
      simp only [runPositions, List.foldlM_cons, hup, Except.map]
      exact hrun

/-- C1 (counterexample): the claim "a video whose current status is
'completed' is never moved back to 'in-progress' or 'unwatched' by a
position update alone, regardless of how low the reported position is"
is false: on a video that is `completed` with stored duration 600,
`recordPosition(1, 10)` reports 10/600 < 0.9 with a positive position and
the classifier rewrites the status to `in-progress`. -/
theorem recordPosition_downgrades_completed :
    (findVideo c1Store 1).map Video.status = some Status.completed
    ∧ (updatePosition c1Store 1 10 none).toOption.map (fun r => r.1.status) =
        some Status.inProgress
    ∧ Status.inProgress ≠ Status.completed := by
  refine ⟨rfl, ?_, by decide⟩
  have hfind : findVideo c1Store 1 = some c1video := rfl
  simp only [updatePosition, hfind]
  norm_num [applyPosition, deriveStatus, usedDuration, jsOrQ, completionThreshold,
    c1video, Except.toOption]

/-- C1 (amended): stepwise non-regression.  Over any sequence of
`recordPosition` calls with non-decreasing valid positions and a fixed
supplied duration, on a video whose status is not already `completed`,
the status observed after any prefix of the sequence (`pre`) never ranks
above the status observed after any longer prefix (`pre ++ mid`), with
respect to unwatched < in-progress < completed; in particular
`completed`, once reached at any intermediate point of the sequence, is
never overwritten back by the later calls. -/
theorem recordPosition_never_regresses
    (s : Store) (videoId : Nat) (v0 : Video) (pre mid : List ℚ) (d : Option ℚ)
    (hfind : findVideo s videoId = some v0)
    (h0 : v0.status ≠ Status.completed)
    (hmono : List.Chain' (· ≤ ·) (pre ++ mid))
    (hval : ∀ p ∈ pre ++ mid, 0 ≤ p) :
    ∃ (s₁ s₂ : Store) (v₁ v₂ : Video),
      runPositions s videoId pre d = Except.ok s₁
      ∧ runPositions s videoId (pre ++ mid) d = Except.ok s₂
      ∧ findVideo s₁ videoId = some v₁
      ∧ findVideo s₂ videoId = some v₂
      ∧ statusRank v0.status ≤ statusRank v₁.status
      ∧ statusRank v₁.status ≤ statusRank v₂.status
      ∧ (v₁.status = Status.completed → v₂.status = Status.completed) := by
  have hvalpre : ∀ p ∈ pre, 0 ≤ p :=
    fun p hp => hval p (List.mem_append_left mid hp)
  obtain ⟨s₁, hrun₁, hres₁⟩ := runPositions_ok videoId d pre s v0 hfind hvalpre
  obtain ⟨s₂, hrun₂, hres₂⟩ := runPositions_ok videoId d (pre ++ mid) s v0 hfind hval
  have hchpre : List.Chain' (· ≤ ·) pre := (List.chain'_append.mp hmono).1
  have h01 : statusRank v0.status ≤
      statusRank ((pre.foldl (fun w p => applyPosition w p d) v0).status) :=
    (foldPositions_invariant d pre v0 (fun h => absurd h h0) hchpre).1
  have h12 : statusRank ((pre.foldl (fun w p => applyPosition w p d) v0).status)
      ≤ statusRank (((pre ++ mid).foldl (fun w p => applyPosition w p d) v0).status) :=
    foldPositions_prefix d pre mid v0 h0 hmono
  refine ⟨s₁, s₂, _, _, hrun₁, hrun₂, hres₁, hres₂, h01, h12, ?_⟩
  intro hc
  have h2 : (2 : Nat) ≤
      statusRank ((pre.foldl (fun w p => applyPosition w p d) v0).status) := by
    rw [hc]
    exact le_refl _
  exact statusRank_completed (le_trans h2 h12)

/-- C1 (witness): the amended theorem applied to the concrete run
`recordPosition(1, 540, 600)` (prefix, which reaches `completed`) followed
by `recordPosition(1, 600, 600)` — the completed status persists. -/
theorem recordPosition_never_regresses_witness :
    ∃ (s₁ s₂ : Store) (v₁ v₂ : Video),
      runPositions demoStore 1 [540] (some 600) = Except.ok s₁
      ∧ runPositions demoStore 1 ([540] ++ [600]) (some 600) = Except.ok s₂
      ∧ findVideo s₁ 1 = some v₁
      ∧ findVideo s₂ 1 = some v₂
      ∧ statusRank Status.unwatched ≤ statusRank v₁.status
      ∧ statusRank v₁.status ≤ statusRank v₂.status
      ∧ (v₁.status = Status.completed → v₂.status = Status.completed) :=
  recordPosition_never_regresses demoStore 1 _ [540] [600] (some 600) rfl
    (by decide)
    (by simp only [List.cons_append, List.nil_append]
        rw [List.chain'_cons]
        exact ⟨by norm_num, List.chain'_singleton _⟩)
    (by intro p hp
        simp only [List.cons_append, List.nil_append, List.mem_cons,
          List.mem_singleton] at hp
        rcases hp with rfl | rfl | h
        · norm_num
        · norm_num
        · cases h)

/-- For a supplied duration that is absent or non-negative, the code's
divisor `duration || video.duration` agrees with the spec's effective
duration.  (They disagree exactly on negative supplied durations.) -/
theorem usedDuration_eq_spec (v : Video) (d : Option ℚ)
    (hd : d = none ∨ ∃ x, d = some x ∧ 0 ≤ x) :
    usedDuration v d = specEffectiveDuration d v.duration := by
  rcases hd with rfl | ⟨x, rfl, hx⟩
  · rfl
  · by_cases hx0 : x = 0
    · simp [usedDuration, jsOrQ, specEffectiveDuration, hx0]
    · have hxpos : 0 < x := lt_of_le_of_ne hx (Ne.symm hx0)
      simp [usedDuration, jsOrQ, specEffectiveDuration, hx0, hxpos]

/-- C3 (counterexample): the claim fails on non-positive supplied
durations.  `recordPosition(1, 10, 0)` overwrites the stored positive
duration 600 with 0 (`COALESCE(0, duration) = 0` — only NULL is passed
through), and for a supplied `-1` the divisor actually used is `-1`, not
the stored duration as the claim's "previously stored duration otherwise"
requires. -/
theorem recordPosition_resets_stored_duration :
    (findVideo c3Store 1).map Video.duration = some 600
    ∧ (updatePosition c3Store 1 10 (some 0)).toOption.map (fun r => r.1.duration) =
        some 0
    ∧ usedDuration c3video (some (-1)) = -1 := by
  refine ⟨rfl, ?_, rfl⟩
  have hfind : findVideo c3Store 1 = some c3video := rfl
  simp only [updatePosition, hfind]
  norm_num [applyPosition, coalesce, Except.toOption]

/-- C3 (amended): for every successful `recordPosition` call whose supplied
duration is absent or positive, the duration used for status derivation
equals the supplied duration when present and positive, else the stored
duration; and the stored duration, once positive, stays positive: it is
preserved when no duration is supplied and overwritten only by the
supplied positive value.  (As the counterexample shows, a supplied
non-positive duration is nonetheless persisted by the code, so the
original unconditional claim fails.) -/
theorem recordPosition_effectiveDuration
    (s : Store) (videoId : Nat) (p : ℚ) (d : Option ℚ) (v0 v : Video) (s' : Store)
    (hd : d = none ∨ ∃ x, d = some x ∧ 0 < x)
    (hfind : findVideo s videoId = some v0)
    (h : updatePosition s videoId p d = Except.ok (v, s')) :
    usedDuration v0 d = specEffectiveDuration d v0.duration
    ∧ v.duration = specEffectiveDuration d v0.duration
    ∧ (0 < v0.duration → 0 < v.duration) := by
  obtain ⟨-, video, hfind', hv, -⟩ := updatePosition_ok h
  rw [hfind] at hfind'
  cases hfind'
  have hd' : d = none ∨ ∃ x, d = some x ∧ 0 ≤ x := by
    rcases hd with rfl | ⟨x, rfl, hx⟩
    · exact Or.inl rfl
    · exact Or.inr ⟨x, rfl, le_of_lt hx⟩
  refine ⟨usedDuration_eq_spec v0 d hd', ?_, ?_⟩
  · rcases hd with rfl | ⟨x, rfl, hx⟩
    · simp [hv, applyPosition, coalesce, specEffectiveDuration]
    · simp [hv, applyPosition, coalesce, specEffectiveDuration, hx]
  · intro hpos
    rcases hd with rfl | ⟨x, rfl, hx⟩
    · simpa [hv, applyPosition, coalesce] using hpos
    · simpa [hv, applyPosition, coalesce] using hx

/-- C3 (witness): the amended theorem applied to
`recordPosition(1, 10, 5)` on a video with stored duration 600. -/
theorem recordPosition_effectiveDuration_witness :
    ∃ (v : Video) (s' : Store),
      updatePosition c3Store 1 10 (some 5) = Except.ok (v, s')
      ∧ usedDuration c3video (some 5) = specEffectiveDuration (some 5) c3video.duration
      ∧ v.duration = specEffectiveDuration (some 5) c3video.duration
      ∧ (0 < c3video.duration → 0 < v.duration) := by
  have hfind : findVideo c3Store 1 = some c3video := rfl
  have h : updatePosition c3Store 1 10 (some 5) =
      Except.ok (applyPosition c3video 10 (some 5),
        replaceVideo c3Store 1 (fun w => applyPosition w 10 (some 5))) := by
    unfold updatePosition
    rw [if_neg (by norm_num : ¬ (10 : ℚ) < 0), hfind]
  obtain ⟨h1, h2, h3⟩ := recordPosition_effectiveDuration c3Store 1 10 (some 5)
    c3video _ _ (Or.inr ⟨5, rfl, by norm_num⟩) hfind h
  exact ⟨_, _, h, h1, h2, h3⟩

/-- C4 (counterexample): for a supplied negative duration the claim's
premises hold — the spec's effective duration is the stored 600 > 0 and
540/600 meets the threshold — so the claim demands `completed`, but the
code's divisor is the negative supplied value, so it takes the
unknown-duration path and yields `in-progress`. -/
theorem statusDerivation_negative_duration :
    specEffectiveDuration (some (-1)) (600 : ℚ) = 600
    ∧ completionThreshold ≤ (540 : ℚ) / 600
    ∧ (updatePosition c3Store 1 540 (some (-1))).toOption.map (fun r => r.1.status) =
        some Status.inProgress
    ∧ Status.inProgress ≠ Status.completed := by
  refine ⟨by norm_num [specEffectiveDuration], by norm_num [completionThreshold], ?_,
    by decide⟩
  have hfind : findVideo c3Store 1 = some c3video := rfl
  simp only [updatePosition, hfind]
  norm_num [applyPosition, deriveStatus, usedDuration, jsOrQ, completionThreshold,
    c3video, Except.toOption]

/-- C4 (amended): for every successful `recordPosition` call whose supplied
duration is absent or non-negative (so that the code's divisor agrees
with the spec's effective duration): if the effective duration is
positive and `position / duration` meets the 0.9 threshold the new status
is `completed`; below the threshold with positive position it is
`in-progress`; below the threshold with position 0 the status is
unchanged; with unknown (non-positive) effective duration a positive
position moves only an `unwatched` video to `in-progress` and leaves
every other status unchanged.  Concretely, `recordPosition(1, 540, 600)`
yields `completed` and `recordPosition(1, 60, 600)` yields `in-progress`. -/
theorem recordPosition_status_derivation
    (s : Store) (videoId : Nat) (p : ℚ) (d : Option ℚ) (v0 v : Video) (s' : Store)
    (hd : d = none ∨ ∃ x, d = some x ∧ 0 ≤ x)
    (hfind : findVideo s videoId = some v0)
    (h : updatePosition s videoId p d = Except.ok (v, s')) :
    ((0 < specEffectiveDuration d v0.duration →
      (completionThreshold ≤ p / specEffectiveDuration d v0.duration →
        v.status = Status.completed)
      ∧ (p / specEffectiveDuration d v0.duration < completionThreshold → 0 < p →
        v.status = Status.inProgress)
      ∧ (p / specEffectiveDuration d v0.duration < completionThreshold → ¬ 0 < p →
        v.status = v0.status))
    ∧ (specEffectiveDuration d v0.duration ≤ 0 →
      (0 < p → v0.status = Status.unwatched → v.status = Status.inProgress)
      ∧ (¬ (0 < p ∧ v0.status = Status.unwatched) → v.status = v0.status)))
    ∧ (updatePosition demoStore 1 540 (some 600)).toOption.map (fun r => r.1.status) =
        some Status.completed
    ∧ (updatePosition demoStore 1 60 (some 600)).toOption.map (fun r => r.1.status) =
        some Status.inProgress := by
  obtain ⟨-, video, hfind', hv, -⟩ := updatePosition_ok h
  rw [hfind] at hfind'
  cases hfind'
  have hDeq : usedDuration v0 d = specEffectiveDuration d v0.duration :=
    usedDuration_eq_spec v0 d hd
  have hvs : v.status = deriveStatus v0 p d := by rw [hv]; rfl
  have hfixed : findVideo demoStore 1 =
      some { id := 1, path := "/course/01_intro.mp4", filename := "01_intro.mp4",
             title := "01 intro", duration := 0, position := 0,
             status := Status.unwatched, moduleId := none, sortOrder := 1 } := rfl
  refine ⟨⟨?_, ?_⟩, ?_, ?_⟩
  · intro hpos
    have h0 : 0 < usedDuration v0 d := by rw [hDeq]; exact hpos
    refine ⟨fun ht => ?_, fun ht hp => ?_, fun ht hp => ?_⟩
    · rw [hvs]
      simp [deriveStatus, h0, hDeq ▸ ht]
    · rw [hvs]
      have ht' : ¬ completionThreshold ≤ p / usedDuration v0 d := by
        rw [hDeq]; exact not_le.mpr ht
      simp [deriveStatus, h0, ht', hp]
    · rw [hvs]
      have ht' : ¬ completionThreshold ≤ p / usedDuration v0 d := by
        rw [hDeq]; exact not_le.mpr ht
      simp [deriveStatus, h0, ht', hp]
  · intro hnp
    have h0 : ¬ 0 < usedDuration v0 d := by rw [hDeq]; exact not_lt.mpr hnp
    refine ⟨fun hp hu => ?_, fun hnu => ?_⟩
    · rw [hvs]
      simp [deriveStatus, h0, hp, hu]
    · rw [hvs]
      have hd0 : deriveStatus v0 p d = v0.status := by
        simp only [deriveStatus]
        rw [if_neg h0, if_neg hnu]
      exact hd0
  · simp only [updatePosition, hfixed]
    norm_num [applyPosition, deriveStatus, usedDuration, jsOrQ, completionThreshold,
      Except.toOption]
  · simp only [updatePosition, hfixed]
    norm_num [applyPosition, deriveStatus, usedDuration, jsOrQ, completionThreshold,
      Except.toOption]

/-- C4 (witness): the amended theorem applied to `recordPosition(1, 540, 600)`
on a fresh video — the threshold branch fires and the status becomes
`completed`. -/
theorem recordPosition_status_derivation_witness :
    ∃ (v : Video) (s' : Store),
      updatePosition c3Store 1 540 (some 600) = Except.ok (v, s')
      ∧ v.status = Status.completed := by
  have hfind : findVideo c3Store 1 = some c3video := rfl
  have h : updatePosition c3Store 1 540 (some 600) =
      Except.ok (applyPosition c3video 540 (some 600),
        replaceVideo c3Store 1 (fun w => applyPosition w 540 (some 600))) := by
    unfold updatePosition
    rw [if_neg (by norm_num : ¬ (540 : ℚ) < 0), hfind]
  have hder := recordPosition_status_derivation c3Store 1 540 (some 600)
    c3video _ _ (Or.inr ⟨600, rfl, by norm_num⟩) hfind h
  refine ⟨_, _, h, (hder.1.1 ?_).1 ?_⟩
  · norm_num [specEffectiveDuration, c3video]
  · norm_num [specEffectiveDuration, c3video, completionThreshold]

/-- C2 (counterexample): at the service level the empty query is the SQL
pattern `'%%'`, which matches every row — on a populated store
`searchVideos` with the empty string returns all videos, not an empty
result set. -/
theorem search_empty_query_returns_all :
    searchVideos c3Store "" = [(c3video, none)]
    ∧ [((c3video : Video), (none : Option String))] ≠ [] := by
  exact ⟨rfl, by simp⟩

/-- Scanning for a contiguous sublist is the any-over-suffixes of the
prefix test. -/
theorem containsL_eq_any_tails (pat : List Char) :
    ∀ hay, containsL pat hay = hay.tails.any (fun t => isPrefixL pat t)
  | [] => by simp [containsL, List.tails]
  | c :: rest => by
      rw [List.tails_cons]
      simp only [containsL, List.any_cons]
      rw [containsL_eq_any_tails pat rest]

/-- A wildcard-free pattern followed by `%` LIKE-matches exactly the
strings it is a case-insensitive prefix of. -/
theorem likeMatch_wildfree (q : List Char) (hq : ∀ c ∈ q, c ≠ '%' ∧ c ≠ '_') :
    ∀ t, likeMatch (q ++ ['%']) t =
      isPrefixL (q.map Char.toLower) (t.map Char.toLower) := by
  induction q with
  | nil =>
      intro t
      have h1 : likeMatch ([] ++ ['%']) t = t.tails.any (fun u => likeMatch [] u) := by
        simp [likeMatch]
      have h2 : ∀ u : List Char, u.tails.any (fun w => likeMatch [] w) = true := by
        intro u
        induction u with
        | nil => rfl
        | cons c rest ih =>
            rw [List.tails_cons, List.any_cons, ih, Bool.or_true]
      rw [h1, h2 t]
      simp [isPrefixL]
  | cons c q' ih =>
      intro t
      obtain ⟨hc1, hc2⟩ := hq c (List.mem_cons_self c q')
      have ih' := ih (fun x hx => hq x (List.mem_cons_of_mem c hx))
      cases t with
      | nil =>
          show likeMatch (c :: (q' ++ ['%'])) [] = _
          simp only [likeMatch, if_neg hc1, if_neg hc2]
          simp [isPrefixL]
      | cons x t' =>
          show likeMatch (c :: (q' ++ ['%'])) (x :: t') = _
          simp only [likeMatch, if_neg hc1, if_neg hc2]
          rw [ih' t']
          simp [isPrefixL]

/-- For a query free of the LIKE metacharacters `%` and `_`, the code's
`LIKE '%query%'` predicate is exactly case-insensitive substring
containment. -/
theorem sqlLike_no_wild (q : String) (hq : ∀ c ∈ q.data, c ≠ '%' ∧ c ≠ '_')
    (str : String) :
    sqlLike str (searchTerm q) = containsL (lowerChars q) (lowerChars str) := by
  have hdata : (searchTerm q).data = '%' :: (q.data ++ ['%']) := by
    show ("%" ++ q ++ "%").data = _
    rw [String.data_append, String.data_append]
    rfl
  show likeMatch (searchTerm q).data str.data = _
  rw [hdata]
  have h1 : likeMatch ('%' :: (q.data ++ ['%'])) str.data =
      str.data.tails.any (fun t => likeMatch (q.data ++ ['%']) t) := by
    simp [likeMatch]
  rw [h1]
  rw [congrArg str.data.tails.any (funext (likeMatch_wildfree q.data hq))]
  rw [containsL_eq_any_tails]
  show str.data.tails.any (fun t => isPrefixL (q.data.map Char.toLower) (t.map Char.toLower))
    = ((str.data.map Char.toLower).tails).any (fun t => isPrefixL (lowerChars q) t)
  rw [List.map_tails, List.any_map]
  rfl

/-- C2 (amended): `searchVideos(query)` returns exactly the videos whose
title or filename matches the SQL pattern `'%query%'` under SQLite LIKE
semantics (`%`/`_` wildcards, ASCII case folding), joined with their
module name; for queries free of the LIKE metacharacters this is exactly
case-insensitive substring containment on title or filename; a query
matching nothing returns the empty sequence rather than an error.  The
empty-string query gives the pattern `'%%'`, which matches every video,
so the service returns all videos; the empty result set for an empty
query is implemented one layer up, in the HTTP route handlers, which
short-circuit a falsy query to `[]` without calling the service. -/
theorem search_matches_substring (s : Store) (q : String) :
    (∀ v : Video, (∃ m, (v, m) ∈ searchVideos s q) ↔
      (v ∈ s.videos ∧
        (sqlLike v.title (searchTerm q) = true
          ∨ sqlLike v.filename (searchTerm q) = true)))
    ∧ ((∀ c ∈ q.data, c ≠ '%' ∧ c ≠ '_') →
      ∀ v : Video, (∃ m, (v, m) ∈ searchVideos s q) ↔
        (v ∈ s.videos ∧
          (containsL (lowerChars q) (lowerChars v.title) = true
            ∨ containsL (lowerChars q) (lowerChars v.filename) = true)))
    ∧ (∀ v m, (v, m) ∈ searchVideos s q → m = moduleNameFor s v)
    ∧ apiSearch s "" = []
    ∧ ((∀ v ∈ s.videos, sqlLike v.title (searchTerm q) = false
          ∧ sqlLike v.filename (searchTerm q) = false) →
        searchVideos s q = []) := by
  have hmem : ∀ v : Video, (∃ m, (v, m) ∈ searchVideos s q) ↔
      (v ∈ s.videos ∧
        (sqlLike v.title (searchTerm q) = true
          ∨ sqlLike v.filename (searchTerm q) = true)) := by
    intro v
    constructor
    · rintro ⟨m, hm⟩
      simp only [searchVideos, List.mem_map] at hm
      obtain ⟨v', hv', hEq⟩ := hm
      obtain ⟨rfl, rfl⟩ := Prod.mk.injEq .. |>.mp hEq
      simp only [sortRows, List.mem_insertionSort, List.mem_filter,
        Bool.or_eq_true] at hv'
      exact hv'
    · rintro ⟨hmem', hor⟩
      refine ⟨moduleNameFor s v, ?_⟩
      simp only [searchVideos, List.mem_map]
      refine ⟨v, ?_, rfl⟩
      simp only [sortRows, List.mem_insertionSort, List.mem_filter, Bool.or_eq_true]
      exact ⟨hmem', hor⟩
  refine ⟨hmem, ?_, ?_, rfl, ?_⟩
  · intro hq v
    rw [hmem v, sqlLike_no_wild q hq v.title, sqlLike_no_wild q hq v.filename]
  · intro v m hm
    simp only [searchVideos, List.mem_map] at hm
    obtain ⟨v', _, hEq⟩ := hm
    obtain ⟨rfl, rfl⟩ := Prod.mk.injEq .. |>.mp hEq
    rfl
  · intro hnone
    have hfilter : s.videos.filter
        (fun v => sqlLike v.title (searchTerm q)
          || sqlLike v.filename (searchTerm q)) = [] := by
      rw [List.filter_eq_nil_iff]
      intro v hv
      simp [(hnone v hv).1, (hnone v hv).2]
    simp [searchVideos, hfilter, sortRows, List.insertionSort]

/-- C2 (witness): the amended theorem applied to the concrete query
`'nonexistent'` on a populated store — an empty sequence, not an error
(Scenario E). -/
theorem search_matches_substring_witness :
    searchVideos c3Store "nonexistent" = [] :=
  (search_matches_substring c3Store "nonexistent").2.2.2.2
    (by intro v hv
        simp only [c3Store, List.mem_singleton] at hv
        subst hv
        exact ⟨rfl, rfl⟩)

/-- Every video is in exactly one of the three states, so the three counts
partition the table. -/
theorem countP_status_partition (l : List Video) :
    l.countP (fun v => decide (v.status = Status.completed))
      + l.countP (fun v => decide (v.status = Status.inProgress))
      + l.countP (fun v => decide (v.status = Status.unwatched)) = l.length := by
  induction l with
  | nil => rfl
  | cons v l ih =>
      cases hv : v.status <;> simp [List.countP_cons, hv] <;> omega

/-- C8: `stats()` is internally consistent — the three counts sum to the
total (and the subtraction-defined `unwatched` equals the direct count of
`unwatched` rows), and the completion percentage is
`round(100 * completed / total)`, with 0 instead of a division by zero
when the store is empty. -/
theorem stats_consistent (s : Store) :
    (getStats s).unwatched + (getStats s).inProgress + (getStats s).completed =
      (getStats s).total
    ∧ (getStats s).unwatched =
        (s.videos.countP (fun v => decide (v.status = Status.unwatched)) : ℤ)
    ∧ (getStats s).percentComplete =
        (if (getStats s).total = 0 then 0
         else round ((100 * ((getStats s).completed : ℚ)) / ((getStats s).total : ℚ))) := by
  have hpart := countP_status_partition s.videos
  refine ⟨?_, ?_, ?_⟩
  · simp only [getStats]
    ring
  · simp only [getStats]
    omega
  · simp only [getStats]
    by_cases h : (s.videos.length : ℤ) = 0
    · have h' : ¬ ((0 : ℤ) < (s.videos.length : ℤ)) := by omega
      simp [h, h']
    · have h' : (0 : ℤ) < (s.videos.length : ℤ) := by positivity
      simp only [h', if_pos, h, if_neg, if_false]
      congr 1
      push_cast
      ring

/-- C9: `getNotes` raises `NotFoundError` exactly when no video with the
identifier exists; for an existing video with no notes row it returns the
synthesized `{videoId, content: ''}` record; and a successful read always
leaves the store unchanged (no notes row is created by a read). -/
theorem notes_get_contract (s : Store) (videoId : Nat) :
    ((∃ e, getNotes s videoId = Except.error e) ↔ ∀ v ∈ s.videos, v.id ≠ videoId)
    ∧ (∀ v, findVideo s videoId = some v → findNote s videoId = none →
        getNotes s videoId = Except.ok ({ videoId := videoId, content := "" }, s))
    ∧ (∀ n s', getNotes s videoId = Except.ok (n, s') → s' = s) := by
  refine ⟨⟨?_, ?_⟩, ?_, ?_⟩
  · rintro ⟨e, he⟩
    cases hfind : findVideo s videoId with
    | none =>
        intro v hv
        have h' := List.find?_eq_none.mp hfind v hv
        simpa using h'
    | some video =>
        cases hnote : findNote s videoId <;> simp [getNotes, hfind, hnote] at he
  · intro h
    have hfind : findVideo s videoId = none := by
      unfold findVideo
      rw [List.find?_eq_none]
      intro v hv
      simpa using h v hv
    exact ⟨Err.notFound ("Video with id " ++ toString videoId), by simp [getNotes, hfind]⟩
  · intro v hfind hnote
    simp [getNotes, hfind, hnote]
  · intro n s' h
    cases hfind : findVideo s videoId with
    | none => simp [getNotes, hfind] at h
    | some video =>
        cases hnote : findNote s videoId with
        | none =>
            simp only [getNotes, hfind, hnote, Except.ok.injEq, Prod.mk.injEq] at h
            exact h.2.symm
        | some m =>
            simp only [getNotes, hfind, hnote, Except.ok.injEq, Prod.mk.injEq] at h
            exact h.2.symm

/-- C9 (witness): on a store holding video 1 but no notes rows, `getNotes`
synthesizes the empty record and leaves the store unchanged. -/
theorem notes_get_contract_witness :
    getNotes c3Store 1 = Except.ok ({ videoId := 1, content := "" }, c3Store) :=
  (notes_get_contract c3Store 1).2.1 c3video rfl rfl

/-- Inversion of a successful `saveNotes` call: the videos table is
untouched, and the first notes row for the video now carries exactly the
saved content (the upsert updated it in place, or appended it when the
video had no notes row yet) — in particular the row still exists even
when the saved content is the empty string. -/
theorem findNote_upsertNote (s : Store) (videoId : Nat) (content : String) :
    ∃ m, findNote (upsertNote s videoId content) videoId = some m
      ∧ m.content = content ∧ m.videoId = videoId := by
  cases hb : s.notes.any (fun x => decide (x.videoId = videoId)) with
  | true =>
      -- ON CONFLICT ... DO UPDATE branch: the first matching row is updated.
      have hsome : ∃ old, s.notes.find? (fun x => decide (x.videoId = videoId)) = some old := by
        rcases List.any_eq_true.mp hb with ⟨x, hx, hpx⟩
        cases hf : s.notes.find? (fun x => decide (x.videoId = videoId)) with
        | none => exact absurd hpx (by simpa using List.find?_eq_none.mp hf x hx)
        | some old => exact ⟨old, rfl⟩
      obtain ⟨old, hold⟩ := hsome
      have holdId : old.videoId = videoId := by
        have := List.find?_some hold
        simpa using this
      have hupd := find?_map_update (q := fun x : Note => x.videoId = videoId)
        (fun x => { x with content := content }) (fun a ha => ha) s.notes old hold
      refine ⟨{ old with content := content }, ?_, rfl, holdId⟩
      unfold upsertNote findNote
      rw [hb]
      simpa using hupd
  | false =>
      -- plain INSERT branch: the appended row is found past the non-matches.
      have hnone : s.notes.find? (fun x => decide (x.videoId = videoId)) = none := by
        rw [List.find?_eq_none]
        intro x hx
        have := List.any_eq_false.mp hb x hx
        simpa using this
      refine ⟨{ videoId := videoId, content := content }, ?_, rfl, rfl⟩
      unfold upsertNote findNote
      rw [hb]
      simp only [Bool.false_eq_true, if_false]
      show (s.notes ++ [({ videoId := videoId, content := content } : Note)]).find?
        (fun x => decide (x.videoId = videoId)) = _
      rw [List.find?_append, hnone]
      simp [List.find?]

/-- Inversion of a successful `saveNotes` call: the new store is the
upsert of the old one — in particular the videos table is untouched and
the first notes row for the video carries exactly the saved content, so
the row still exists even when the saved content is the empty string. -/
theorem saveNotes_ok {s : Store} {videoId : Nat} {content : String}
    {n : Note} {s' : Store}
    (h : saveNotes s videoId content = Except.ok (n, s')) :
    s' = upsertNote s videoId content
    ∧ s'.videos = s.videos
    ∧ ∃ m, findNote s' videoId = some m ∧ m.content = content ∧ m.videoId = videoId := by
  have hs' : s' = upsertNote s videoId content := by
    cases hfind : findVideo s videoId with
    | none => simp [saveNotes, hfind] at h
    | some video =>
        simp only [saveNotes, hfind] at h
        cases hgn : getNotes (upsertNote s videoId content) videoId with
        | error e => rw [hgn] at h; cases h
        | ok p =>
            rw [hgn] at h
            cases hp : p with
            | mk p1 p2 =>
                rw [hp] at h
                cases h
                rfl
  have hvids : s'.videos = s.videos := by
    rw [hs']
    unfold upsertNote
    cases hb : s.notes.any (fun x => decide (x.videoId = videoId)) <;> simp [hb]
  refine ⟨hs', hvids, ?_⟩
  rw [hs']
  exact findNote_upsertNote s videoId content

/-- C10: `getVideosWithNotes` lists exactly the videos whose notes row
exists and has non-empty content, ordered by sort key then filename; and
after `saveNotes(videoId, '')` the notes row still exists (with empty
content) but the video no longer appears in the listing. -/
theorem videosWithNotes_contract (s : Store) :
    (∀ v : Video, (∃ c, (v, c) ∈ getVideosWithNotes s) ↔
      (v ∈ s.videos ∧ ∃ n, findNote s v.id = some n ∧ n.content ≠ ""))
    ∧ List.Sorted videoOrder ((getVideosWithNotes s).map Prod.fst)
    ∧ (∀ videoId n s', saveNotes s videoId "" = Except.ok (n, s') →
        (∃ m, findNote s' videoId = some m ∧ m.content = "")
        ∧ (∀ v ∈ s'.videos, v.id = videoId → ¬ ∃ c, (v, c) ∈ getVideosWithNotes s')) := by
  have hmem : ∀ (t : Store) (v : Video),
      (∃ c, (v, c) ∈ getVideosWithNotes t) ↔
        (v ∈ t.videos ∧ ∃ n, findNote t v.id = some n ∧ n.content ≠ "") := by
    intro t v
    constructor
    · rintro ⟨c, hc⟩
      simp only [getVideosWithNotes, List.mem_map] at hc
      obtain ⟨v', hv', hEq⟩ := hc
      injection hEq with h1 h2
      subst h1
      simp only [sortRows, List.mem_insertionSort, List.mem_filter] at hv'
      refine ⟨hv'.1, ?_⟩
      have hp := hv'.2
      unfold hasNonemptyNote at hp
      cases hn : findNote t v'.id with
      | none => rw [hn] at hp; cases hp
      | some m =>
          rw [hn] at hp
          exact ⟨m, rfl, by simpa using hp⟩
    · rintro ⟨hmem', m, hm, hne⟩
      refine ⟨m.content, ?_⟩
      simp only [getVideosWithNotes, List.mem_map]
      refine ⟨v, ?_, ?_⟩
      · simp only [sortRows, List.mem_insertionSort, List.mem_filter]
        refine ⟨hmem', ?_⟩
        unfold hasNonemptyNote
        rw [hm]
        simpa using hne
      · rw [hm]
        rfl
  refine ⟨hmem s, ?_, ?_⟩
  · have hcomp : (Prod.fst ∘ fun v : Video =>
        (v, ((findNote s v.id).map Note.content).getD "")) = id := rfl
    have hfst : (getVideosWithNotes s).map Prod.fst =
        sortRows (s.videos.filter (fun v => hasNonemptyNote s v)) := by
      unfold getVideosWithNotes
      rw [List.map_map, hcomp, List.map_id]
    rw [hfst]
    exact List.sorted_insertionSort videoOrder _
  · intro videoId n s' h
    obtain ⟨-, hvids, m, hm, hmc, hmid⟩ := saveNotes_ok h
    refine ⟨⟨m, hm, hmc⟩, ?_⟩
    rintro v hv hvid ⟨c, hc⟩
    obtain ⟨-, n', hn', hne⟩ := (hmem s' v).mp ⟨c, hc⟩
    rw [hvid, hm] at hn'
    cases hn'
    exact hne hmc

/-- C10 (witness): saving empty-string notes on a video that had notes
keeps its notes row but removes the video from `getVideosWithNotes`. -/
theorem videosWithNotes_contract_witness :
    ∃ (n : Note) (s' : Store),
      saveNotes c10Store 1 "" = Except.ok (n, s')
      ∧ (∃ m, findNote s' 1 = some m ∧ m.content = "")
      ∧ (∀ v ∈ s'.videos, v.id = 1 → ¬ ∃ c, (v, c) ∈ getVideosWithNotes s') := by
  have h : saveNotes c10Store 1 "" =
      Except.ok ({ videoId := 1, content := "" }, c10Store') := rfl
  obtain ⟨h1, h2⟩ := (videosWithNotes_contract c10Store).2.2 1 _ _ h
  exact ⟨_, _, h, h1, h2⟩

/-- Two videos with equal title-erased projections agree on every field
other than the title. -/
theorem eraseTitle_fields {v' v : Video} (h : eraseTitle v' = eraseTitle v) :
    v'.id = v.id ∧ v'.path = v.path ∧ v'.filename = v.filename
    ∧ v'.position = v.position ∧ v'.status = v.status ∧ v'.duration = v.duration
    ∧ v'.moduleId = v.moduleId ∧ v'.sortOrder = v.sortOrder := by
  cases v'
  cases v
  simp only [eraseTitle, Video.mk.injEq] at h
  obtain ⟨h1, h2, h3, -, h5, h6, h7, h8, h9⟩ := h
  exact ⟨h1, h2, h3, h6, h7, h5, h8, h9⟩

/-- The module resolution step never touches the videos table. -/
theorem getOrCreateModule_videos (s : Store) (mp mn : String) :
    (getOrCreateModule s mp mn).2.videos = s.videos := by
  unfold getOrCreateModule
  by_cases h : mn = "Root"
  · simp [h]
  · simp only [h, if_false]
    cases s.modules.find? (fun m => decide (m.path = mp)) <;> simp

/-- Reduction of `scanStep` in the found-by-path (UPDATE) case. -/
theorem scanStep_update {acc : ScanResult × Store} {f : FoundVideo} {existing : Video}
    (hfind : acc.2.videos.find? (fun v => decide (v.path = f.path)) = some existing) :
    scanStep acc f =
      ({ total := acc.1.total, added := acc.1.added, existing := acc.1.existing + 1 },
       { acc.2 with videos := (acc.2.videos.map
           (fun v => if v.id = existing.id then { v with title := f.title } else v)) }) := by
  simp only [scanStep, hfind]

/-- Reduction of `scanStep` in the new-path (INSERT) case. -/
theorem scanStep_insert {acc : ScanResult × Store} {f : FoundVideo}
    (hfind : acc.2.videos.find? (fun v => decide (v.path = f.path)) = none) :
    scanStep acc f =
      ({ total := acc.1.total, added := acc.1.added + 1, existing := acc.1.existing },
       { (getOrCreateModule acc.2 f.modulePath f.moduleName).2 with
           videos := (getOrCreateModule acc.2 f.modulePath f.moduleName).2.videos ++
             [{ id := (getOrCreateModule acc.2 f.modulePath f.moduleName).2.nextVideoId,
                path := f.path, filename := f.filename, title := f.title,
                duration := 0, position := 0, status := Status.unwatched,
                moduleId := (getOrCreateModule acc.2 f.modulePath f.moduleName).1,
                sortOrder := f.sortOrder }],
           nextVideoId :=
             (getOrCreateModule acc.2 f.modulePath f.moduleName).2.nextVideoId + 1 }) := by
  simp only [scanStep, hfind]

/-- One reconciliation step only retitles existing rows and appends new
ones: the title-erased row list grows by a (possibly empty) suffix. -/
theorem scanStep_keeps_rows (acc : ScanResult × Store) (f : FoundVideo) :
    ∃ inserted, ((scanStep acc f).2).videos.map eraseTitle
      = acc.2.videos.map eraseTitle ++ inserted := by
  cases hfind : acc.2.videos.find? (fun v => decide (v.path = f.path)) with
  | some existing =>
      refine ⟨[], ?_⟩
      rw [scanStep_update hfind]
      simp only [List.append_nil, List.map_map]
      apply List.map_congr_left
      intro v _
      by_cases hid : v.id = existing.id <;> simp [Function.comp, eraseTitle, hid]
  | none =>
      rw [scanStep_insert hfind]
      refine ⟨[eraseTitle
        { id := (getOrCreateModule acc.2 f.modulePath f.moduleName).2.nextVideoId,
          path := f.path, filename := f.filename, title := f.title,
          duration := 0, position := 0, status := Status.unwatched,
          moduleId := (getOrCreateModule acc.2 f.modulePath f.moduleName).1,
          sortOrder := f.sortOrder }], ?_⟩
      rw [List.map_append, getOrCreateModule_videos]
      rfl

/-- Folding the reconciliation over a whole discovery list preserves every
existing row (up to its title) in place. -/
theorem scan_keeps_rows (found : List FoundVideo) :
    ∀ (acc : ScanResult × Store),
      ∃ inserted, ((found.foldl scanStep acc).2).videos.map eraseTitle
        = acc.2.videos.map eraseTitle ++ inserted := by
  induction found with
  | nil => exact fun acc => ⟨[], by simp⟩
  | cons f found ih =>
      intro acc
      obtain ⟨ins1, h1⟩ := scanStep_keeps_rows acc f
      obtain ⟨ins2, h2⟩ := ih (scanStep acc f)
      exact ⟨ins1 ++ ins2, by rw [List.foldl_cons, h2, h1, List.append_assoc]⟩

/-- Every row of the original store survives a scan with its title-erased
projection intact. -/
theorem scan_row_survives (s : Store) (found : List FoundVideo) :
    ∀ v ∈ s.videos, ∃ v' ∈ ((scanVideos s found).2).videos,
      eraseTitle v' = eraseTitle v := by
  intro v hv
  obtain ⟨inserted, hproj⟩ := scan_keeps_rows found
    ({ total := found.length, added := 0, existing := 0 }, s)
  have hmem : eraseTitle v ∈ ((scanVideos s found).2).videos.map eraseTitle := by
    show eraseTitle v ∈ ((found.foldl scanStep _).2).videos.map eraseTitle
    rw [hproj]
    exact List.mem_append_left _ (List.mem_map_of_mem eraseTitle hv)
  obtain ⟨v', hv', hEq⟩ := List.mem_map.mp hmem
  exact ⟨v', hv', hEq⟩

/-- C5: a rescan may update only the title of a video already present in
the store: for every run of scan, each original row survives with
identical id, path, filename, position, status, duration, module
reference and sort key (only `title` is rewritten), and the title-erased
row list is extended in place, never rewritten or truncated. -/
theorem rescan_updates_only_title (s : Store) (found : List FoundVideo) :
    (∃ inserted, ((scanVideos s found).2).videos.map eraseTitle
      = s.videos.map eraseTitle ++ inserted)
    ∧ ∀ v ∈ s.videos, ∃ v' ∈ ((scanVideos s found).2).videos,
        v'.id = v.id ∧ v'.path = v.path ∧ v'.filename = v.filename
        ∧ v'.position = v.position ∧ v'.status = v.status
        ∧ v'.duration = v.duration ∧ v'.moduleId = v.moduleId
        ∧ v'.sortOrder = v.sortOrder := by
  constructor
  · exact scan_keeps_rows found _
  · intro v hv
    obtain ⟨v', hv', hEq⟩ := scan_row_survives s found v hv
    exact ⟨v', hv', eraseTitle_fields hEq⟩

/-- C5 (witness): rescanning a store holding the already-discovered
completed video (at position 595) leaves all its progress fields intact. -/
theorem rescan_updates_only_title_witness :
    ∃ v' ∈ ((scanVideos c1Store [demoFound]).2).videos,
      v'.id = c1video.id ∧ v'.path = c1video.path ∧ v'.filename = c1video.filename
      ∧ v'.position = c1video.position ∧ v'.status = c1video.status
      ∧ v'.duration = c1video.duration ∧ v'.moduleId = c1video.moduleId
      ∧ v'.sortOrder = c1video.sortOrder :=
  (rescan_updates_only_title c1Store [demoFound]).2
    c1video (List.mem_singleton.mpr rfl)

/-- Path bookkeeping of one reconciliation step: an existing path leaves
paths, ids, counters and modules untouched, a new path is appended and
was absent before. -/
theorem scanStep_paths (acc : ScanResult × Store) (f : FoundVideo) :
    ((scanStep acc f).2.videos.map Video.path = acc.2.videos.map Video.path
      ∧ (scanStep acc f).1.added = acc.1.added
      ∧ f.path ∈ acc.2.videos.map Video.path
      ∧ (scanStep acc f).2.videos.map Video.id = acc.2.videos.map Video.id
      ∧ (scanStep acc f).2.modules = acc.2.modules)
    ∨ ((scanStep acc f).2.videos.map Video.path = acc.2.videos.map Video.path ++ [f.path]
      ∧ f.path ∉ acc.2.videos.map Video.path) := by
  cases hfind : acc.2.videos.find? (fun v => decide (v.path = f.path)) with
  | some existing =>
      left
      have hex : existing ∈ acc.2.videos ∧ existing.path = f.path := by
        refine ⟨List.mem_of_find?_eq_some hfind, ?_⟩
        have := List.find?_some hfind
        simpa using this
      rw [scanStep_update hfind]
      refine ⟨?_, rfl, ?_, ?_, rfl⟩
      · simp only [List.map_map]
        apply List.map_congr_left
        intro v _
        by_cases hid : v.id = existing.id <;> simp [Function.comp, hid]
      · exact hex.2 ▸ List.mem_map_of_mem Video.path hex.1
      · simp only [List.map_map]
        apply List.map_congr_left
        intro v _
        by_cases hid : v.id = existing.id <;> simp [Function.comp, hid]
  | none =>
      right
      rw [scanStep_insert hfind]
      constructor
      · simp only [List.map_append, getOrCreateModule_videos]
        rfl
      · intro hmem
        obtain ⟨v, hv, hvp⟩ := List.mem_map.mp hmem
        exact absurd (by simpa using hvp) (by simpa using List.find?_eq_none.mp hfind v hv)

/-- Path presence is monotone along the reconciliation fold. -/
theorem scan_preserves_present (found : List FoundVideo) :
    ∀ (acc : ScanResult × Store) (p : String),
      p ∈ acc.2.videos.map Video.path →
      p ∈ ((found.foldl scanStep acc).2).videos.map Video.path := by
  induction found with
  | nil => exact fun acc p hp => hp
  | cons f found ih =>
      intro acc p hp
      rw [List.foldl_cons]
      refine ih (scanStep acc f) p ?_
      rcases scanStep_paths acc f with ⟨h1, -⟩ | ⟨h1, -⟩
      · rw [h1]; exact hp
      · rw [h1]; exact List.mem_append_left _ hp

/-- After a scan, every discovered path is present in the store. -/
theorem scan_establishes_present (found : List FoundVideo) :
    ∀ (acc : ScanResult × Store) (g : FoundVideo), g ∈ found →
      g.path ∈ ((found.foldl scanStep acc).2).videos.map Video.path := by
  induction found with
  | nil => intro _ g hg; cases hg
  | cons f found ih =>
      intro acc g hg
      rw [List.foldl_cons]
      rcases List.mem_cons.mp hg with rfl | hg'
      · refine scan_preserves_present found (scanStep acc g) g.path ?_
        rcases scanStep_paths acc g with ⟨h1, -, h3, -⟩ | ⟨h1, -⟩
        · rw [h1]; exact h3
        · rw [h1]; exact List.mem_append_right _ (List.mem_singleton.mpr rfl)
      · exact ih (scanStep acc f) g hg'

/-- When every discovered path is already present, the reconciliation fold
takes the update branch throughout: nothing is added, and row ids and the
modules table are unchanged. -/
theorem scan_all_present (found : List FoundVideo) :
    ∀ (acc : ScanResult × Store),
      (∀ g ∈ found, g.path ∈ acc.2.videos.map Video.path) →
      (found.foldl scanStep acc).1.added = acc.1.added
      ∧ (found.foldl scanStep acc).2.videos.map Video.id = acc.2.videos.map Video.id
      ∧ (found.foldl scanStep acc).2.modules = acc.2.modules := by
  induction found with
  | nil => exact fun acc _ => ⟨rfl, rfl, rfl⟩
  | cons f found ih =>
      intro acc hall
      rw [List.foldl_cons]
      rcases scanStep_paths acc f with ⟨h1, h2, -, h4, h5⟩ | ⟨-, h2⟩
      · obtain ⟨ih1, ih2, ih3⟩ := ih (scanStep acc f)
          (fun g hg => h1 ▸ hall g (List.mem_cons_of_mem f hg))
        exact ⟨ih1.trans h2, ih2.trans h4, ih3.trans h5⟩
      · exact absurd (hall f (List.mem_cons_self f found)) h2

/-- Distinctness of stored paths is preserved by the reconciliation fold:
a new row is inserted only when its path is absent. -/
theorem scan_nodup_paths (found : List FoundVideo) :
    ∀ (acc : ScanResult × Store),
      (acc.2.videos.map Video.path).Nodup →
      (((found.foldl scanStep acc).2).videos.map Video.path).Nodup := by
  induction found with
  | nil => exact fun _ h => h
  | cons f found ih =>
      intro acc h
      rw [List.foldl_cons]
      refine ih (scanStep acc f) ?_
      rcases scanStep_paths acc f with ⟨h1, -⟩ | ⟨h1, h2⟩
      · rw [h1]; exact h
      · rw [h1]
        rw [List.nodup_append]
        exact ⟨h, List.nodup_singleton _, by simpa [List.disjoint_singleton] using h2⟩

/-- C6: rescanning is idempotent in row count — the second run over the
unchanged discovery list adds 0 rows and returns the same row ids, row
count and modules table; scanned stores keep paths pairwise-distinct; and
scan never deletes rows (every original id/path pair survives). -/
theorem rescan_idempotent (s : Store) (found : List FoundVideo) :
    (scanVideos (scanVideos s found).2 found).1.added = 0
    ∧ (scanVideos (scanVideos s found).2 found).2.videos.map Video.id =
        ((scanVideos s found).2).videos.map Video.id
    ∧ (scanVideos (scanVideos s found).2 found).2.videos.length =
        ((scanVideos s found).2).videos.length
    ∧ (scanVideos (scanVideos s found).2 found).2.modules =
        ((scanVideos s found).2).modules
    ∧ ((s.videos.map Video.path).Nodup →
        (((scanVideos s found).2).videos.map Video.path).Nodup)
    ∧ (∀ v ∈ s.videos, ∃ v' ∈ ((scanVideos s found).2).videos,
        v'.id = v.id ∧ v'.path = v.path) := by
  have hpresent : ∀ g ∈ found,
      g.path ∈ ((scanVideos s found).2).videos.map Video.path :=
    fun g hg => scan_establishes_present found _ g hg
  obtain ⟨h1, h2, h3⟩ := scan_all_present found
    ({ total := found.length, added := 0, existing := 0 }, (scanVideos s found).2)
    hpresent
  refine ⟨h1, h2, ?_, h3, ?_, ?_⟩
  · have := congrArg List.length h2
    simpa using this
  · exact fun h => scan_nodup_paths found _ h
  · intro v hv
    obtain ⟨v', hv', hEq⟩ := scan_row_survives s found v hv
    obtain ⟨e1, e2, -⟩ := eraseTitle_fields hEq
    exact ⟨v', hv', e1, e2⟩

/-- C6 (witness): the idempotence theorem applied to a singleton discovery
list over the fresh store, with the distinct-paths hypothesis discharged
on the empty store. -/
theorem rescan_idempotent_witness :
    (scanVideos (scanVideos initialStore [demoFound]).2 [demoFound]).1.added = 0
    ∧ (((scanVideos initialStore [demoFound]).2).videos.map Video.path).Nodup := by
  have h := rescan_idempotent initialStore [demoFound]
  exact ⟨h.1, h.2.2.2.2.1 (by simp [initialStore])⟩

/-- If the classifier leaves a valid position update at `unwatched`, the
reported position was 0. -/
theorem deriveStatus_unwatched (v : Video) (p : ℚ) (d : Option ℚ) (hp : 0 ≤ p)
    (h : deriveStatus v p d = Status.unwatched) : p = 0 := by
  simp only [deriveStatus] at h
  by_cases h0 : 0 < usedDuration v d
  · rw [if_pos h0] at h
    by_cases ht : completionThreshold ≤ p / usedDuration v d
    · rw [if_pos ht] at h; cases h
    · rw [if_neg ht] at h
      by_cases hpp : 0 < p
      · rw [if_pos hpp] at h; cases h
      · exact le_antisymm (not_lt.mp hpp) hp
  · rw [if_neg h0] at h
    by_cases hu : 0 < p ∧ v.status = Status.unwatched
    · rw [if_pos hu] at h; cases h
    · by_cases hpp : 0 < p
      · rw [if_neg hu] at h
        exact absurd ⟨hpp, h⟩ hu
      · exact le_antisymm (not_lt.mp hpp) hp

/-- One reconciliation step preserves the invariant: retitling does not
touch status or position, and inserted rows are `unwatched` at position 0. -/
theorem scanStep_unwatchedZero (acc : ScanResult × Store) (f : FoundVideo)
    (h : unwatchedZero acc.2) : unwatchedZero (scanStep acc f).2 := by
  cases hfind : acc.2.videos.find? (fun v => decide (v.path = f.path)) with
  | some existing =>
      rw [scanStep_update hfind]
      intro v hv hst
      obtain ⟨w, hw, hwe⟩ := List.mem_map.mp hv
      by_cases hid : w.id = existing.id
      · rw [if_pos hid] at hwe
        subst hwe
        exact h w hw hst
      · rw [if_neg hid] at hwe
        subst hwe
        exact h w hw hst
  | none =>
      rw [scanStep_insert hfind]
      intro v hv hst
      simp only [getOrCreateModule_videos] at hv
      rcases List.mem_append.mp hv with hv' | hv'
      · exact h v hv' hst
      · rw [List.mem_singleton] at hv'
        subst hv'
        rfl

/-- The invariant is preserved by a whole scan. -/
theorem scan_unwatchedZero (found : List FoundVideo) :
    ∀ (acc : ScanResult × Store), unwatchedZero acc.2 →
      unwatchedZero ((found.foldl scanStep acc).2) := by
  induction found with
  | nil => exact fun _ h => h
  | cons f found ih =>
      intro acc h
      rw [List.foldl_cons]
      exact ih (scanStep acc f) (scanStep_unwatchedZero acc f h)

/-- The invariant is preserved by `recordPosition`. -/
theorem updatePosition_unwatchedZero {s : Store} {videoId : Nat} {p : ℚ}
    {d : Option ℚ} {v : Video} {s' : Store}
    (hok : updatePosition s videoId p d = Except.ok (v, s'))
    (h : unwatchedZero s) : unwatchedZero s' := by
  obtain ⟨hp, video, hfind, hv, hs'⟩ := updatePosition_ok hok
  subst hs'
  intro w hw hst
  obtain ⟨u, hu, hue⟩ := List.mem_map.mp hw
  by_cases hid : u.id = videoId
  · rw [if_pos hid] at hue
    subst hue
    exact deriveStatus_unwatched u p d hp hst
  · rw [if_neg hid] at hue
    subst hue
    exact h u hu hst

/-- The invariant is preserved by `setStatus`. -/
theorem updateStatus_unwatchedZero {s : Store} {videoId : Nat} {str : String}
    {v : Video} {s' : Store}
    (hok : updateStatus s videoId str = Except.ok (v, s'))
    (h : unwatchedZero s) : unwatchedZero s' := by
  obtain ⟨st, video, hst, hfind, hv, hs'⟩ := updateStatus_ok hok
  subst hs'
  intro w hw hwst
  obtain ⟨u, hu, hue⟩ := List.mem_map.mp hw
  by_cases hid : u.id = videoId
  · rw [if_pos hid] at hue
    subst hue
    by_cases hstu : st = Status.unwatched
    · simp [hstu]
    · exact absurd hwst hstu
  · rw [if_neg hid] at hue
    subst hue
    exact h u hu hwst

/-- C7: in every store reachable through scan / recordPosition / setStatus,
`status = unwatched` implies `position = 0`; immediately after
`setStatus(videoId, 'unwatched')` the video's position is 0; and
`setStatus` with any other valid status leaves the position untouched. -/
theorem unwatched_implies_zero_position :
    (∀ s, Reachable s → unwatchedZero s)
    ∧ (∀ (s : Store) (videoId : Nat) (v' : Video) (s' : Store),
        updateStatus s videoId "unwatched" = Except.ok (v', s') →
        v'.position = 0 ∧ v'.status = Status.unwatched)
    ∧ (∀ (s : Store) (videoId : Nat) (str : String) (st : Status) (v v' : Video)
        (s' : Store), statusOfString str = some st → st ≠ Status.unwatched →
        findVideo s videoId = some v →
        updateStatus s videoId str = Except.ok (v', s') →
        v'.position = v.position) := by
  refine ⟨?_, ?_, ?_⟩
  · intro s hs
    induction hs with
    | init => intro v hv _; cases hv
    | scan s found _ ih =>
        exact scan_unwatchedZero found
          ({ total := found.length, added := 0, existing := 0 }, s) ih
    | recordPos s videoId p d v s' _ hok ih => exact updatePosition_unwatchedZero hok ih
    | setStatus s videoId str v s' _ hok ih => exact updateStatus_unwatchedZero hok ih
  · intro s videoId v' s' hok
    obtain ⟨st, video, hst, hfind, hv, -⟩ := updateStatus_ok hok
    have hst' : some Status.unwatched = some st := hst
    injection hst' with hst''
    subst hst''
    rw [hv]
    exact ⟨by simp, rfl⟩
  · intro s videoId str st v v' s' hstr hne hfind hok
    obtain ⟨st2, video, hst2, hfind2, hv, -⟩ := updateStatus_ok hok
    rw [hstr] at hst2
    injection hst2 with h1
    rw [hfind] at hfind2
    injection hfind2 with h2
    subst h1
    subst h2
    rw [hv]
    simp [hne]

/-- C7 (witness): the theorem applied to `setStatus(1, 'unwatched')` on a
completed video at position 595 — the position is reset to 0. -/
theorem unwatched_implies_zero_position_witness :
    ∃ (v' : Video) (s' : Store),
      updateStatus c1Store 1 "unwatched" = Except.ok (v', s')
      ∧ v'.position = 0 ∧ v'.status = Status.unwatched := by
  have h : updateStatus c1Store 1 "unwatched" =
      Except.ok ({ c1video with status := Status.unwatched, position := 0 },
        replaceVideo c1Store 1
          (fun w => { w with status := Status.unwatched, position := 0 })) := rfl
  exact ⟨_, _, h, unwatched_implies_zero_position.2.1 c1Store 1 _ _ h⟩

end CourseWatcher

